import Mathlib

/-!
# A shallow embedding of the gisp interpreter core

This file embeds the core of the gisp interpreter (the Go package in the
repository: value universe, parser loop, environment chain, evaluator and
the built-in procedures that the verified claims exercise) and proves
properties of the embedded functions.

Modelling conventions, stated once here:

* Go `int64` values are modelled as `Int`; the arithmetic of `callop`
  wraps explicitly through `wrap64` where the Go code can overflow.
  Integer division or remainder by zero panics in Go and is modelled as
  `none` (a bottom outcome distinct from every returned value).
* Go `float64` values are modelled as `Rat`.  The arithmetic identities
  proved here only use values on which IEEE-754 double arithmetic is
  exact; float division by zero (which yields an infinity in Go, a value
  outside this model) is likewise mapped to `none`.
* The Go value `nil` of type `any` (stored by `let` bindings and produced
  by built-ins with a named `ret` result that is never assigned) is a
  first-class inhabitant of the Go value universe and is modelled by the
  constructor `Value.goNil`.  Raw Go `int` results (returned by the
  `find` built-in and by `callop` on zero operands) are modelled by
  `Value.goInt`; like in Go, these raw values implement none of the
  capability interfaces.
* The environment is a chain of frames; the head of the `frames` list is
  the local frame and the last entry is the root.  A Go frame is a
  `map[string]any`, modelled as an association list with set-or-replace
  update.  Since a `Lambda` in this code base stores no environment
  reference, every environment alive during evaluation is part of the
  current chain and the chain behaves exactly like a stack, which the
  list of frames captures faithfully.
* Output (the `print`/`println` built-ins) is modelled as a trace: the
  list of argument vectors printed so far, carried in the state.
* The interpreter is presented as a single fuel-indexed step function
  `run` over a `Task` sum; each `Task` constructor corresponds to one Go
  function or loop (`Eval`, `Env.Get`, body sequences, the `if` chain,
  the `while` loop, the `setq` pair loop, lambda parameter binding,
  `callop` and its two fold loops, `callcond` and its loop, and the
  remaining built-ins).  Fuel exhaustion is `none`; every theorem below
  supplies enough fuel, so `none` never stands for a source behaviour
  except where a Go panic is modelled.
* The built-in registry is embedded with exactly the entries the claims
  exercise: println, quote, setq, if, while, begin, let, lambda, list,
  first, last, nth, rest, find.  The omitted entries (print, format,
  readfile, readlines, sleep, rand, contains, append, not, or, and,
  eval) do I/O or randomness or are never mentioned by any program
  verified here, and no verified program uses their names as variables,
  so the dispatch behaviour on the verified programs is unchanged.
* The lexer (Go text/scanner) is treated as the token supplier: `Token`
  is the stream the scanner hands to `parse`, with the one-character
  lookahead for signed numeric literals already resolved into
  `Token.sign`, and each identifier delivered as one token.  The
  function `parseLoop` is the embedding of the `parse` method of the
  Parser, token case by token case.
-/

namespace Gisp

/-- The gisp value universe: the dynamic values that flow through the Go
interpreter as `any`.  Each constructor matches one Go type, plus the two
raw Go values described in the header. -/
inductive Value : Type where
  | err (kind : String)
  | boolean (b : Bool)
  | sym (s : String)
  | quoted (v : Value)
  | op (s : String)
  | condOp (s : String)
  | intV (n : Int)
  | floatV (q : Rat)
  | strV (s : String)
  | listV (items : List Value)
  | lambdaV (params : List Value) (body : List Value)
  | goNil
  | goInt (n : Int)

/-- The gisp false value Nil (Go: `Nil = Boolean{value: false}`). -/
def nilV : Value := .boolean false

/-- The gisp true value (Go: `True = Boolean{value: true}`). -/
def trueV : Value := .boolean true

/-- One environment frame: the Go `map[string]any`, as an association
list with set-or-replace update. -/
abbrev Frame := List (String × Value)

/-- Interpreter state: the chain of frames (head = local, last = root)
and the output trace (one entry per print call, the evaluated
arguments). -/
structure St where
  frames : List Frame
  out : List (List Value)

/-- The initial state: a single empty root frame, no output. -/
def st0 : St := ⟨[[]], []⟩

/-- Membership test for a name in a frame (Go: `_, ok := e.vars[name]`). -/
def frameHas (f : Frame) (nm : String) : Bool :=
  f.any (fun p => p.1 == nm)

/-- Lookup in a frame (Go: `v, ok := e.vars[name]`). -/
def frameGet? (f : Frame) (nm : String) : Option Value :=
  match f with
  | [] => none
  | (k, v) :: r => if k == nm then some v else frameGet? r nm

/-- Set-or-replace in a frame (Go: `e.vars[name] = value`). -/
def frameSet (f : Frame) (nm : String) (v : Value) : Frame :=
  match f with
  | [] => [(nm, v)]
  | (k, w) :: r => if k == nm then (nm, v) :: r else (k, w) :: frameSet r nm v

/-- Go `getname`: a Symbol yields its name, anything else is an invalid
name.  (The Go code also accepts a raw Go `string`; no such value occurs
in the embedded universe because the `format` built-in, the only producer
of raw strings, is not embedded.) -/
def getname (o : Value) : Option String :=
  match o with
  | .sym s => some s
  | _ => none

/-- Go `Env.Get` name walk: first frame that binds the name wins; an
unbound name resolves to Nil at the root. -/
def getFrames (fs : List Frame) (nm : String) : Value :=
  match fs with
  | [] => nilV
  | [f] =>
    match frameGet? f nm with
    | some v => v
    | none => nilV
  | f :: g :: r =>
    match frameGet? f nm with
    | some v => v
    | none => getFrames (g :: r) nm

/-- Go `Env.Put` frame walk: overwrite in the first frame that already
binds the name; if no frame up to the root binds it, create it in the
root (the last frame). -/
def putFrames (fs : List Frame) (nm : String) (v : Value) : List Frame :=
  match fs with
  | [] => []
  | [f] => [frameSet f nm v]
  | f :: g :: r =>
    if frameHas f nm then frameSet f nm v :: g :: r
    else f :: putFrames (g :: r) nm v

/-- Go `Env.Put` including the `getname` guard: on a non-name the error
is returned and nothing is written; otherwise the walk above runs and the
value is returned. -/
def envPutV (fs : List Frame) (o v : Value) : List Frame × Value :=
  match getname o with
  | none => (fs, .err "invalid-parameter-type")
  | some nm => (putFrames fs nm v, v)

/-- Go `Env.PutLocal` restricted to the local frame it writes: on a
non-name the error is returned and nothing is written; otherwise the
binding is created or overwritten in this frame only (`PutLocal` never
consults the parent chain: it does not even receive it). -/
def putLocalFrame (f : Frame) (o v : Value) : Frame × Value :=
  match getname o with
  | none => (f, .err "invalid-parameter-type")
  | some nm => (frameSet f nm v, v)

/-- Go `int64(f)` for the rational model of float64: truncation toward
zero (both division operands below are non-negative, so every integer
division convention agrees). -/
def ratTrunc (q : Rat) : Int :=
  if 0 ≤ q.num then q.num / (q.den : Int) else -((-q.num) / (q.den : Int))

/-- Go `CanInt` capability: Integer is itself, Float truncates toward
zero, every other variant (including raw Go values) lacks the method
set. -/
def canInt (v : Value) : Option Int :=
  match v with
  | .intV n => some n
  | .floatV q => some (ratTrunc q)
  | _ => none

/-- Go `CanFloat` capability: Integer widens, Float is itself. -/
def canFloat (v : Value) : Option Rat :=
  match v with
  | .intV n => some (n : Rat)
  | .floatV q => some q
  | _ => none

/-- Go `CanBool` capability: Boolean is its value; Integer, Float and
String are always true; List is true iff non-empty; everything else
lacks the method. -/
def canBool (v : Value) : Option Bool :=
  match v with
  | .boolean b => some b
  | .intV _ => some true
  | .floatV _ => some true
  | .strV _ => some true
  | .listV items => some (!items.isEmpty)
  | _ => none

/-- Go `CanCompare` capability test: exactly Boolean, Integer, Float and
String implement the comparison method set. -/
def canCompare (v : Value) : Bool :=
  match v with
  | .boolean _ => true
  | .intV _ => true
  | .floatV _ => true
  | .strV _ => true
  | _ => false

/-- Go `boolint` table. -/
def boolint (b : Bool) : Int := if b then 1 else 0

/-- The `Eq` methods: dispatch on the receiver, cast the argument through
the capability the receiver uses (`CanBool`, `CanInt`, `CanFloat`, or the
String type test), with the Go fallback result when the cast fails. -/
def cmpEq (c1 c2 : Value) : Bool :=
  match c1 with
  | .boolean b =>
    match canBool c2 with
    | some bb => b == bb
    | none => !b
  | .intV n =>
    match canInt c2 with
    | some m => n == m
    | none => false
  | .floatV q =>
    match canFloat c2 with
    | some p => q == p
    | none => false
  | .strV s =>
    match c2 with
    | .strV t => s == t
    | _ => false
  | _ => false

/-- The `Lt` methods, same dispatch shape as `cmpEq`. -/
def cmpLt (c1 c2 : Value) : Bool :=
  match c1 with
  | .boolean b =>
    match canBool c2 with
    | some bb => boolint b < boolint bb
    | none => false
  | .intV n =>
    match canInt c2 with
    | some m => n < m
    | none => false
  | .floatV q =>
    match canFloat c2 with
    | some p => q < p
    | none => false
  | .strV s =>
    match c2 with
    | .strV t => s < t
    | _ => false
  | _ => false

/-- The `Leq` methods.  Note the Boolean fallback from the source:
without the capability the receiver compares against false. -/
def cmpLeq (c1 c2 : Value) : Bool :=
  match c1 with
  | .boolean b =>
    match canBool c2 with
    | some bb => boolint b ≤ boolint bb
    | none => boolint b ≤ boolint false
  | .intV n =>
    match canInt c2 with
    | some m => n ≤ m
    | none => false
  | .floatV q =>
    match canFloat c2 with
    | some p => q ≤ p
    | none => false
  | .strV s =>
    match c2 with
    | .strV t => s ≤ t
    | _ => false
  | _ => false

/-- The `Gt` methods; the Boolean fallback returns the receiver value. -/
def cmpGt (c1 c2 : Value) : Bool :=
  match c1 with
  | .boolean b =>
    match canBool c2 with
    | some bb => boolint b > boolint bb
    | none => b
  | .intV n =>
    match canInt c2 with
    | some m => n > m
    | none => false
  | .floatV q =>
    match canFloat c2 with
    | some p => q > p
    | none => false
  | .strV s =>
    match c2 with
    | .strV t => s > t
    | _ => false
  | _ => false

/-- The `Geq` methods; the Boolean fallback returns true. -/
def cmpGeq (c1 c2 : Value) : Bool :=
  match c1 with
  | .boolean b =>
    match canBool c2 with
    | some bb => boolint b ≥ boolint bb
    | none => true
  | .intV n =>
    match canInt c2 with
    | some m => n ≥ m
    | none => false
  | .floatV q =>
    match canFloat c2 with
    | some p => q ≥ p
    | none => false
  | .strV s =>
    match c2 with
    | .strV t => s ≥ t
    | _ => false
  | _ => false

/-- The comparator switch of `callcond`: an operator string outside the
five known ones leaves the Go `cond` variable false. -/
def applyCond (s : String) (c1 c2 : Value) : Bool :=
  if s = "=" then cmpEq c1 c2
  else if s = "<" then cmpLt c1 c2
  else if s = "<=" then cmpLeq c1 c2
  else if s = ">" then cmpGt c1 c2
  else if s = ">=" then cmpGeq c1 c2
  else false

/-- Two-complement wraparound of Go `int64` arithmetic. -/
def wrap64 (n : Int) : Int :=
  (n + 2 ^ 63).emod (2 ^ 64) - 2 ^ 63

/-- Truncated (toward zero) integer division, the Go `/` on `int64`
before the wraparound of the overflowing corner case. -/
def tdivI (a b : Int) : Int :=
  (Int.ofNat (a.natAbs / b.natAbs)) * a.sign * b.sign

/-- Go `%` on `int64`: remainder with the sign of the dividend. -/
def tmodI (a b : Int) : Int :=
  a - tdivI a b * b

/-- One step of the Integer accumulator switch of `callop`.  Division or
remainder by zero panics in Go: `none`.  An operator string outside the
five known ones leaves the accumulator unchanged (the Go switch has no
default). -/
def intOp (s : String) (v i : Int) : Option Int :=
  if s = "+" then some (wrap64 (v + i))
  else if s = "-" then some (wrap64 (v - i))
  else if s = "*" then some (wrap64 (v * i))
  else if s = "/" then (if i = 0 then none else some (wrap64 (tdivI v i)))
  else if s = "%" then (if i = 0 then none else some (wrap64 (tmodI v i)))
  else some v

/-- One step of the Float accumulator switch of `callop`.  The remainder
case truncates both sides to `int64` and takes the integer remainder
(panicking when the truncated divisor is zero); float division by zero
yields an infinity in Go, a value outside the rational model, so it is
also mapped to `none` (no verified program divides by zero). -/
def floatOp (s : String) (v i : Rat) : Option Rat :=
  if s = "+" then some (v + i)
  else if s = "-" then some (v - i)
  else if s = "*" then some (v * i)
  else if s = "/" then (if i = 0 then none else some (v / i))
  else if s = "%" then
    (if ratTrunc i = 0 then none
     else some ((tmodI (ratTrunc v) (ratTrunc i) : Int) : Rat))
  else some v

/-- Go `quote`: wrap a Symbol or a List, leave anything else alone. -/
def quoteFn (v : Value) : Value :=
  match v with
  | .sym _ => .quoted v
  | .listV _ => .quoted v
  | _ => v

/-- Go `ident`: the spellings true and nil make Booleans, anything else
is a Symbol. -/
def identV (s : String) : Value :=
  if s = "true" then trueV
  else if s = "nil" then nilV
  else .sym s

/-- The embedded part of the built-in registry (see the file header). -/
def builtinNames : List String :=
  ["println", "quote", "setq", "if", "while", "begin", "let", "lambda",
   "list", "first", "last", "nth", "rest", "find"]

/-- Membership in the embedded registry. -/
def isBuiltin (s : String) : Bool :=
  builtinNames.contains s

/-- Does one character list start with another (byte-for-byte prefix
test, used to model `strings.Index` on the ASCII strings the claims
use). -/
def listLeads : List Char → List Char → Bool
  | [], _ => true
  | _ :: _, [] => false
  | c :: cs, d :: ds => c == d && listLeads cs ds

/-- First position of the needle inside the haystack, or `none`
(Go `strings.Index` returns -1 there). -/
def idxAux (nd : List Char) : List Char → Option Nat
  | [] => if listLeads nd [] then some 0 else none
  | c :: t =>
    if listLeads nd (c :: t) then some 0
    else (idxAux nd t).map (· + 1)

/-- Go `strings.Index haystack needle` with `none` for -1. -/
def strIdx (hay nd : String) : Option Nat :=
  idxAux nd.data hay.data

/-- Go `==` on two interface values: values of different dynamic types
are unequal; two values of the same non-comparable dynamic type (List,
Lambda) panic, modelled `none`; Quoted compares its payload; Error values
compare by identity of the wrapped error, which for the error constants
of this package coincides with the kind string. -/
def goEq : Value → Value → Option Bool
  | .listV _, .listV _ => none
  | .lambdaV _ _, .lambdaV _ _ => none
  | .quoted a, .quoted b => goEq a b
  | .err a, .err b => some (a == b)
  | .boolean a, .boolean b => some (a == b)
  | .sym a, .sym b => some (a == b)
  | .op a, .op b => some (a == b)
  | .condOp a, .condOp b => some (a == b)
  | .intV a, .intV b => some (a == b)
  | .floatV a, .floatV b => some (a == b)
  | .strV a, .strV b => some (a == b)
  | .goNil, .goNil => some true
  | .goInt a, .goInt b => some (a == b)
  | _, _ => some false

/-- Go `slices.Index` on the item list of a List haystack: outer `none`
is a panic from comparing non-comparable values, inner `none` means the
needle is absent (Go -1). -/
def slicesIdxAux : List Value → Value → Option (Option Nat)
  | [], _ => some none
  | x :: rest, t =>
    match goEq x t with
    | none => none
    | some true => some (some 0)
    | some false => (slicesIdxAux rest t).map (fun r => r.map (· + 1))

/-- Bind the declared locals of a `let` form into a fresh frame: each is
put locally with the Go value nil; a non-Symbol local is skipped exactly
as `PutLocal` skips it. -/
def bindLocals (ls : List Value) : Frame :=
  ls.foldl (fun f p => (putLocalFrame f p .goNil).1) []

/-- Bind one lambda parameter into the fresh call frame (`PutLocal` on
the parameter: a non-Symbol parameter binds nothing). -/
def bindParam (f : Frame) (p v : Value) : Frame :=
  (putLocalFrame f p v).1

/-- The work items of the interpreter; each constructor embeds one Go
function or loop, as listed in the file header. -/
inductive Task : Type where
  | evalT (v : Value)
  | getT (o : Value)
  | seqT (ret : Value) (forms : List Value)
  | builtinT (name : String) (args : List Value)
  | ifT (args : List Value)
  | whileT (cond : Value) (body : List Value) (ret : Value)
  | setqT (args : List Value) (ret : Value)
  | printlnT (acc : List Value) (args : List Value)
  | bindT (newf : Frame) (params : List Value) (args : List Value) (body : List Value)
  | opT (s : String) (args : List Value)
  | intFoldT (s : String) (acc : Int) (args : List Value)
  | floatFoldT (s : String) (acc : Rat) (args : List Value)
  | condT (s : String) (args : List Value)
  | condFoldT (s : String) (c1 : Value) (args : List Value)

/-- The fuel-indexed interpreter.  Each `Task` case is the embedding of
the matching Go function; every recursive call spends one unit of fuel,
and `none` is fuel exhaustion or a modelled Go panic. -/
def run : Nat → St → Task → Option (Value × St)
  | 0, _, _ => none
  | n + 1, st, task =>
    match task with
    | .evalT v =>
      -- Go Eval: self-evaluating scalars, Quoted strips one layer,
      -- Symbol resolves, List dispatches on its head, default returns
      -- the value unchanged.
      match v with
      | .strV _ => some (v, st)
      | .intV _ => some (v, st)
      | .floatV _ => some (v, st)
      | .boolean _ => some (v, st)
      | .quoted x => some (x, st)
      | .sym _ => run n st (.getT v)
      | .listV [] => some (nilV, st)
      | .listV (h :: args) =>
        match h with
        | .sym s =>
          if isBuiltin s then run n st (.builtinT s args)
          else
            match run n st (.getT (.sym s)) with
            | none => none
            | some (w, st1) =>
              match w with
              | .lambdaV ps body => run n st1 (.bindT [] ps args body)
              | _ => some (w, st1)
        | .op s => run n st (.opT s args)
        | .condOp s => run n st (.condT s args)
        | _ => some (v, st)
      | _ => some (v, st)
    | .getT o =>
      -- Go Env.Get: a name resolves through the chain, anything else is
      -- handed to Eval.
      match getname o with
      | some nm => some (getFrames st.frames nm, st)
      | none => run n st (.evalT o)
    | .seqT ret forms =>
      -- The shared body loop: ret starts as the Go nil of a named
      -- result and is replaced by each evaluated form.
      match forms with
      | [] => some (ret, st)
      | f :: rest =>
        match run n st (.evalT f) with
        | none => none
        | some (r, st1) => run n st1 (.seqT r rest)
    | .builtinT name args =>
      if name = "println" then run n st (.printlnT [] args)
      else if name = "quote" then
        some ((match args with
               | [] => nilV
               | a :: _ => quoteFn a), st)
      else if name = "setq" then
        if args.length = 0 ∨ args.length % 2 ≠ 0 then
          some (.err "missing-parameter", st)
        else run n st (.setqT args .goNil)
      else if name = "if" then
        match args with
        | [] => some (nilV, st)
        | _ => run n st (.ifT args)
      else if name = "while" then
        match args with
        | [] => some (nilV, st)
        | c :: body => run n st (.whileT c body .goNil)
      else if name = "begin" then run n st (.seqT .goNil args)
      else if name = "let" then
        match args with
        | [] => some (.err "missing-parameter", st)
        | locals :: body =>
          match locals with
          | .listV ls =>
            match run n { st with frames := bindLocals ls :: st.frames } (.seqT .goNil body) with
            | none => none
            | some (r, st1) => some (r, { st1 with frames := st1.frames.tail })
          | _ => some (.err "invalid-parameter-type", st)
      else if name = "lambda" then
        match args with
        | [] => some (.err "missing-parameter", st)
        | params :: body =>
          match params with
          | .listV ps => some (.lambdaV ps body, st)
          | _ => some (.err "invalid-parameter-type", st)
      else if name = "list" then some (.listV args, st)
      else if name = "first" then
        match args with
        | [] => some (.err "missing-parameter", st)
        | a :: _ =>
          match run n st (.getT a) with
          | none => none
          | some (w, st1) =>
            match w with
            | .listV items =>
              some ((match items with
                     | [] => nilV
                     | x :: _ => x), st1)
            | _ => some (.err "invalid-parameter-type", st1)
      else if name = "last" then
        match args with
        | [] => some (.err "missing-parameter", st)
        | a :: _ =>
          match run n st (.getT a) with
          | none => none
          | some (w, st1) =>
            match w with
            | .listV items =>
              some ((match items.getLast? with
                     | some x => x
                     | none => nilV), st1)
            | _ => some (.err "invalid-parameter-type", st1)
      else if name = "nth" then
        match args with
        | a :: b :: _ =>
          match run n st (.getT a) with
          | none => none
          | some (w, st1) =>
            match canInt w with
            | none => some (.err "invalid-parameter-type", st1)
            | some k =>
              match run n st1 (.getT b) with
              | none => none
              | some (lw, st2) =>
                match lw with
                | .listV items =>
                  if k < 0 ∨ (items.length : Int) ≤ k then some (nilV, st2)
                  else some (items.getD k.toNat nilV, st2)
                | _ => some (.err "invalid-parameter-type", st2)
        | _ => some (.err "missing-parameter", st)
      else if name = "rest" then
        match args with
        | [] => some (.err "missing-parameter", st)
        | a :: _ =>
          match run n st (.getT a) with
          | none => none
          | some (w, st1) =>
            match w with
            | .listV items =>
              match items with
              | [] => some (nilV, st1)
              | _ :: t => some (.listV t, st1)
            | _ => some (.err "invalid-parameter-type", st1)
      else if name = "find" then
        match args with
        | [a, b] =>
          match run n st (.getT a) with
          | none => none
          | some (nv, st1) =>
            match run n st1 (.getT b) with
            | none => none
            | some (sv, st2) =>
              match sv with
              | .strV hay =>
                match nv with
                | .strV nd =>
                  some ((match strIdx hay nd with
                         | some p => if 0 < p then .goInt p else nilV
                         | none => nilV), st2)
                | _ => some (.err "invalid-parameter-type", st2)
              | .listV items =>
                match slicesIdxAux items nv with
                | none => none
                | some r =>
                  some ((match r with
                         | some p => if 0 < p then .goInt p else nilV
                         | none => nilV), st2)
              | _ => some (.err "invalid-parameter-type", st2)
        | _ => some (.err "missing-parameter", st)
      else none
    | .ifT args =>
      -- The Go if chain loop; the loop head indexes args[0], which is
      -- never reached with an empty list from the dispatcher.
      match args with
      | [] => none
      | c :: rest =>
        match run n st (.getT c) with
        | none => none
        | some (barg, st1) =>
          match canBool barg with
          | none => some (barg, st1)
          | some b =>
            if b then
              match rest with
              | [] => some (barg, st1)
              | t :: _ => run n st1 (.getT t)
            else
              match rest with
              | [] => some (nilV, st1)
              | [_] => some (nilV, st1)
              | [_, e] => run n st1 (.getT e)
              | _ :: rest2 => run n st1 (.ifT rest2)
    | .whileT cond body ret =>
      match run n st (.getT cond) with
      | none => none
      | some (bv, st1) =>
        match canBool bv with
        | none => some (ret, st1)
        | some b =>
          if b then
            match run n st1 (.seqT ret body) with
            | none => none
            | some (r, st2) => run n st2 (.whileT cond body r)
          else some (ret, st1)
    | .setqT args ret =>
      match args with
      | nm :: vexpr :: rest =>
        match run n st (.getT vexpr) with
        | none => none
        | some (v, st1) =>
          match envPutV st1.frames nm v with
          | (fs, r) => run n { st1 with frames := fs } (.setqT rest r)
      | _ => some (ret, st)
    | .printlnT acc args =>
      match args with
      | [] =>
        some ((match acc.getLast? with
               | some x => x
               | none => nilV), { st with out := st.out ++ [acc] })
      | a :: rest =>
        match run n st (.getT a) with
        | none => none
        | some (v, st1) => run n st1 (.printlnT (acc ++ [v]) rest)
    | .bindT newf params args body =>
      -- Go CallLambda: arguments are resolved against the CALLER
      -- environment (the lambda stores no environment of its own), the
      -- fresh frame is pushed for the body only and popped afterwards.
      match params with
      | [] =>
        match run n { st with frames := newf :: st.frames } (.seqT .goNil body) with
        | none => none
        | some (r, st1) => some (r, { st1 with frames := st1.frames.tail })
      | p :: ps =>
        match args with
        | [] => run n st (.bindT (bindParam newf p .goNil) ps [] body)
        | a :: as =>
          match run n st (.getT a) with
          | none => none
          | some (gv, st1) => run n st1 (.bindT (bindParam newf p gv) ps as body)
    | .opT s args =>
      match args with
      | [] =>
        if s = "+" then some (.goInt 0, st)
        else some (.err "missing-parameter", st)
      | a :: rest =>
        match run n st (.getT a) with
        | none => none
        | some (first, st1) =>
          match first with
          | .intV k => run n st1 (.intFoldT s k rest)
          | .floatV q => run n st1 (.floatFoldT s q rest)
          | _ => some (.err "invalid-parameter-type", st1)
    | .intFoldT s acc args =>
      match args with
      | [] => some (.intV acc, st)
      | a :: rest =>
        match run n st (.getT a) with
        | none => none
        | some (av, st1) =>
          match canInt av with
          | none => some (.err "invalid-parameter-type", st1)
          | some i =>
            match intOp s acc i with
            | none => none
            | some acc2 => run n st1 (.intFoldT s acc2 rest)
    | .floatFoldT s acc args =>
      match args with
      | [] => some (.floatV acc, st)
      | a :: rest =>
        match run n st (.getT a) with
        | none => none
        | some (av, st1) =>
          match canFloat av with
          | none => some (.err "invalid-parameter-type", st1)
          | some i =>
            match floatOp s acc i with
            | none => none
            | some acc2 => run n st1 (.floatFoldT s acc2 rest)
    | .condT s args =>
      match args with
      | [] => some (trueV, st)
      | a :: rest =>
        match run n st (.getT a) with
        | none => none
        | some (c1, st1) =>
          if canCompare c1 then run n st1 (.condFoldT s c1 rest)
          else some (trueV, st1)
    | .condFoldT s c1 args =>
      match args with
      | [] => some (trueV, st)
      | a :: rest =>
        match run n st (.getT a) with
        | none => none
        | some (c2, st1) =>
          if applyCond s c1 c2 then
            if canCompare c2 then run n st1 (.condFoldT s c2 rest)
            else some (trueV, st1)
          else some (nilV, st1)

/-- The top-level driver loop of the command front-end: evaluate every
form in order, starting from the Go nil of an unassigned result. -/
def runProgram (fuel : Nat) (st : St) (forms : List Value) : Option (Value × St) :=
  run fuel st (.seqT .goNil forms)

/-- The token stream the Go text/scanner hands to `parse` (see the file
header for the two scanner-level conventions: `sign` is a plus or minus
whose peeked next character starts a number, and each identifier arrives
as one token). -/
inductive Token : Type where
  | lparen
  | rparen
  | sep
  | ident (s : String)
  | str (s : String)
  | int (n : Int)
  | float (q : Rat)
  | quoteMark
  | sign (neg : Bool)
  | op (s : String)
  | cmp (s : String)
  | unknown
deriving DecidableEq

/-- Result of a parse: the parsed forms together with the unconsumed
tokens, one of the two Go error values, or fuel exhaustion (`fail`,
never reached by the theorems below). -/
inductive PRes : Type where
  | fail
  | errEof
  | errInvalid
  | ok (l : List Value) (rest : List Token)

/-- Push a freshly appended form in front of the forms parsed by the
rest of the loop; errors of the rest win, as in the Go code where an
error return discards the accumulated list. -/
def consRes (v : Value) : PRes → PRes
  | .ok l r => .ok (v :: l) r
  | e => e

/-- Go `maybequoted`: apply `quote` when the one-shot flag is set.  The
flag clearing is represented by the caller continuing with the flag
down. -/
def mq (q : Bool) (v : Value) : Value :=
  if q then quoteFn v else v

/-- The loop of the Go `parse` method, one case per token, with the
local `neg` and `quoted` flags as arguments.  A left parenthesis runs a
fresh parse (fresh flags, and the Go entry check that an immediate end
of input is an EOF error); a right parenthesis returns, appending Nil
when the quote flag is pending; separators return in parse-one mode and
are skipped otherwise, keeping both flags; identifiers, strings,
numbers and the operator punctuation append a form through
`maybequoted`; a quote mark sets the flag; a sign records the pending
negation for the numeric literal that follows; an unknown token is the
invalid-token error. -/
def parseLoop : Nat → Bool → Bool → Bool → List Token → PRes
  | 0, _, _, _, _ => .fail
  | _ + 1, _, _, _, [] => .ok [] []
  | n + 1, one, neg, quoted, t :: ts =>
    match t with
    | .lparen =>
      match (match ts with
             | [] => PRes.errEof
             | _ => parseLoop n false false false ts) with
      | .ok vv rest => consRes (mq quoted (.listV vv)) (parseLoop n one neg false rest)
      | e => e
    | .rparen => if quoted then .ok [nilV] ts else .ok [] ts
    | .sep => if one then .ok [] ts else parseLoop n one neg quoted ts
    | .ident s => consRes (mq quoted (identV s)) (parseLoop n one neg false ts)
    | .str s => consRes (mq quoted (.strV s)) (parseLoop n one neg false ts)
    | .int k => consRes (mq quoted (.intV (if neg then -k else k))) (parseLoop n one false false ts)
    | .float q => consRes (mq quoted (.floatV (if neg then -q else q))) (parseLoop n one false false ts)
    | .quoteMark => parseLoop n one neg true ts
    | .sign b => parseLoop n one b quoted ts
    | .op s => consRes (mq quoted (.op s)) (parseLoop n one neg false ts)
    | .cmp s => consRes (mq quoted (.condOp s)) (parseLoop n one neg false ts)
    | .unknown => .errInvalid

/-- The Go `parse` entry point (`Parse` passes one = false, `ParseOne`
passes one = true): an immediate end of input is the EOF error,
otherwise the loop runs with cleared flags. -/
def parseGo (fuel : Nat) (one : Bool) (ts : List Token) : PRes :=
  match ts with
  | [] => .errEof
  | _ => parseLoop fuel one false false ts

/-- Is a value a Symbol or a List, the two variants the quote operation
wraps. -/
def isSymOrList (v : Value) : Bool :=
  match v with
  | .sym _ => true
  | .listV _ => true
  | _ => false

/-- An if argument list of (cond, then) pairs whose conditions are all
the literal Nil, with no trailing else: the shape of the no-true-branch
case of claim C5. -/
def mkIfArgs : List Value → List Value
  | [] => []
  | t :: r => nilV :: t :: mkIfArgs r

/-- The needle occurs in the haystack at position j (character lists;
the specification-side notion of an occurrence used to characterise the
search of the find built-in). -/
def occursAtL (nd hay : List Char) (j : Nat) : Bool :=
  listLeads nd (hay.drop j)

/-! ## Helper lemmas -/

/-- Resolving an Integer literal costs two fuel steps and is the
identity: `Env.Get` has no name, hands it to `Eval`, which returns it. -/
theorem run_getT_intV (n : Nat) (st : St) (k : Int) :
    run (n + 2) st (.getT (.intV k)) = some (.intV k, st) := by
  simp [run, getname]

/-- Resolving a Float literal is the identity. -/
theorem run_getT_floatV (n : Nat) (st : St) (q : Rat) :
    run (n + 2) st (.getT (.floatV q)) = some (.floatV q, st) := by
  simp [run, getname]

/-- Resolving a Boolean literal is the identity. -/
theorem run_getT_boolean (n : Nat) (st : St) (b : Bool) :
    run (n + 2) st (.getT (.boolean b)) = some (.boolean b, st) := by
  simp [run, getname]

/-- One step of the comparator fold loop, exposed as an equation that
keeps the recursive occurrences folded. -/
theorem run_condFoldT_cons (n : Nat) (st : St) (s : String) (c1 a : Value)
    (rest : List Value) :
    run (n + 1) st (.condFoldT s c1 (a :: rest)) =
      match run n st (.getT a) with
      | none => none
      | some (c2, st1) =>
        if applyCond s c1 c2 then
          if canCompare c2 then run n st1 (.condFoldT s c2 rest)
          else some (trueV, st1)
        else some (nilV, st1) := rfl

/-- One step of the comparator entry, recursion kept folded. -/
theorem run_condT_cons (n : Nat) (st : St) (s : String) (a : Value)
    (rest : List Value) :
    run (n + 1) st (.condT s (a :: rest)) =
      match run n st (.getT a) with
      | none => none
      | some (c1, st1) =>
        if canCompare c1 then run n st1 (.condFoldT s c1 rest)
        else some (trueV, st1) := rfl

/-- One step of the Integer operator fold, recursion kept folded. -/
theorem run_intFoldT_cons (n : Nat) (st : St) (s : String) (acc : Int)
    (a : Value) (rest : List Value) :
    run (n + 1) st (.intFoldT s acc (a :: rest)) =
      match run n st (.getT a) with
      | none => none
      | some (av, st1) =>
        match canInt av with
        | none => some (.err "invalid-parameter-type", st1)
        | some i =>
          match intOp s acc i with
          | none => none
          | some acc2 => run n st1 (.intFoldT s acc2 rest) := rfl

/-- One step of the Float operator fold, recursion kept folded. -/
theorem run_floatFoldT_cons (n : Nat) (st : St) (s : String) (acc : Rat)
    (a : Value) (rest : List Value) :
    run (n + 1) st (.floatFoldT s acc (a :: rest)) =
      match run n st (.getT a) with
      | none => none
      | some (av, st1) =>
        match canFloat av with
        | none => some (.err "invalid-parameter-type", st1)
        | some i =>
          match floatOp s acc i with
          | none => none
          | some acc2 => run n st1 (.floatFoldT s acc2 rest) := rfl

/-- One step of the if chain, recursion kept folded. -/
theorem run_ifT_cons (n : Nat) (st : St) (c : Value) (rest : List Value) :
    run (n + 1) st (.ifT (c :: rest)) =
      match run n st (.getT c) with
      | none => none
      | some (barg, st1) =>
        match canBool barg with
        | none => some (barg, st1)
        | some b =>
          if b then
            match rest with
            | [] => some (barg, st1)
            | t :: _ => run n st1 (.getT t)
          else
            match rest with
            | [] => some (nilV, st1)
            | [_] => some (nilV, st1)
            | [_, e] => run n st1 (.getT e)
            | _ :: rest2 => run n st1 (.ifT rest2) := rfl

/-! ## Claim C7: Put and PutLocal semantics -/

/--
Claim C7.  For every environment chain and every name, `Put` overwrites
the binding in the current frame if the name exists there, otherwise
overwrites in the nearest ancestor frame containing the name, otherwise
creates the binding in the root frame; `Put` never creates a binding in
an intermediate frame, and `PutLocal` writes only in the current frame
without searching ancestors.

Conjunct 1: with `pre` the frames below the first frame `f` that
contains the name (so the current-frame case is `pre = []`), `Put`
rewrites exactly `f` and leaves every other frame alone.  Conjunct 2:
when no frame contains the name, exactly the root frame is extended.
Together the two cases cover every chain, so `Put` never creates in an
intermediate frame.  Conjuncts 3 and 4 relate the `getname`-guarded
entry points to the walks: `PutLocal` touches only the frame it is
handed (it never receives the ancestor chain at all).
-/
theorem c7_put_semantics :
    (∀ (pre : List Frame) (f : Frame) (rest : List Frame) (nm : String) (v : Value),
      (∀ g ∈ pre, frameHas g nm = false) → frameHas f nm = true →
      putFrames (pre ++ f :: rest) nm v = pre ++ frameSet f nm v :: rest)
  ∧ (∀ (pre : List Frame) (lastf : Frame) (nm : String) (v : Value),
      (∀ g ∈ pre, frameHas g nm = false) → frameHas lastf nm = false →
      putFrames (pre ++ [lastf]) nm v = pre ++ [frameSet lastf nm v])
  ∧ (∀ (f : Frame) (nm : String) (v : Value),
      putLocalFrame f (.sym nm) v = (frameSet f nm v, v))
  ∧ (∀ (fs : List Frame) (nm : String) (v : Value),
      envPutV fs (.sym nm) v = (putFrames fs nm v, v)) := by
  refine ⟨?_, ?_, ?_, ?_⟩
  · intro pre
    induction pre with
    | nil =>
      intro f rest nm v _ hf
      cases rest with
      | nil => simp [putFrames]
      | cons g r => simp [putFrames, hf]
    | cons p pre ih =>
      intro f rest nm v hpre hf
      have hp : frameHas p nm = false := hpre p (by simp)
      have hrest : ∀ g ∈ pre, frameHas g nm = false := fun g hg => hpre g (by simp [hg])
      cases hX : pre ++ f :: rest with
      | nil => simp at hX
      | cons x xs =>
        have := ih f rest nm v hrest hf
        rw [hX] at this
        simp only [List.cons_append, hX, putFrames, hp]
        simp [this]
  · intro pre
    induction pre with
    | nil =>
      intro lastf nm v _ _
      simp [putFrames]
    | cons p pre ih =>
      intro lastf nm v hpre hl
      have hp : frameHas p nm = false := hpre p (by simp)
      have hrest : ∀ g ∈ pre, frameHas g nm = false := fun g hg => hpre g (by simp [hg])
      cases hX : pre ++ [lastf] with
      | nil => simp at hX
      | cons x xs =>
        have := ih lastf nm v hrest hl
        rw [hX] at this
        simp only [List.cons_append, hX, putFrames, hp]
        simp [this]
  · intro f nm v
    simp [putLocalFrame, getname]
  · intro fs nm v
    simp [envPutV, getname]

/-- Witness for C7: on the chain local=(x:2), middle=(x:3) absent in
local? no: here local binds a only, the middle binds x, the root binds
x too; Put writes the middle frame (nearest holder) and leaves local and
root alone.  On a chain where no frame binds x, Put creates x in the
root frame. -/
theorem c7_put_semantics_witness :
    putFrames [[("a", .intV 1)], [("x", .intV 2)], [("x", .intV 3)]] "x" (.intV 9)
      = [[("a", .intV 1)], [("x", .intV 9)], [("x", .intV 3)]]
  ∧ putFrames [[("a", .intV 1)], [("b", .intV 2)]] "x" (.intV 9)
      = [[("a", .intV 1)], [("b", .intV 2), ("x", .intV 9)]] := by
  constructor
  · have := c7_put_semantics.1 [[("a", .intV 1)]] [("x", .intV 2)]
      [[("x", .intV 3)]] "x" (.intV 9) (by simp [frameHas]) (by simp [frameHas])
    simpa [frameSet] using this
  · have := c7_put_semantics.2.1 [[("a", .intV 1)]] [("b", .intV 2)]
      "x" (.intV 9) (by simp [frameHas]) (by simp [frameHas])
    simpa [frameSet] using this

/-! ## Claim C10: accessors on empty lists and out-of-range nth -/

/--
Claim C10.  The accessors `first`, `last` and `rest` applied to an empty
List return Nil rather than an error, and `nth` with any index n below
zero or at least the list length returns Nil rather than an error.  The
empty list is produced by the form `(list)`; `nth` is stated for an
arbitrary index and an arbitrary `(list ...)` form (the `list` built-in
passes its operands through unevaluated).
-/
theorem c10_accessors :
    (∀ (n : Nat) (st : St),
      run (n + 4) st (.builtinT "first" [.listV [.sym "list"]]) = some (nilV, st))
  ∧ (∀ (n : Nat) (st : St),
      run (n + 4) st (.builtinT "last" [.listV [.sym "list"]]) = some (nilV, st))
  ∧ (∀ (n : Nat) (st : St),
      run (n + 4) st (.builtinT "rest" [.listV [.sym "list"]]) = some (nilV, st))
  ∧ (∀ (k : Int) (items : List Value) (n : Nat) (st : St),
      (k < 0 ∨ (items.length : Int) ≤ k) →
      run (n + 5) st (.builtinT "nth" [.intV k, .listV (.sym "list" :: items)])
        = some (nilV, st)) := by
  refine ⟨?_, ?_, ?_, ?_⟩
  · intro n st
    simp [run, getname, isBuiltin, builtinNames]
  · intro n st
    simp [run, getname, isBuiltin, builtinNames]
  · intro n st
    simp [run, getname, isBuiltin, builtinNames]
  · intro k items n st h
    simp [run, getname, isBuiltin, builtinNames, canInt, h]

/-- Witness for C10: nth with index 5 on a two-element list yields
Nil. -/
theorem c10_accessors_witness :
    run 9 st0 (.builtinT "nth" [.intV 5, .listV [.sym "list", .intV 1, .intV 2]])
      = some (nilV, st0) := by
  have := c10_accessors.2.2.2 5 [.intV 1, .intV 2] 4 st0 (by norm_num)
  simpa using this

/-! ## Claim C5: the if chain -/

/--
Claim C5.  The if built-in evaluates its operands as (cond, then) pairs
followed by an optional trailing else: if a cond resolves to a value
without the boolean capability, that value is returned as-is; if no cond
is true and no else is present the result is Nil; concretely the form
(if nil 1 nil 2 3) yields 3, (if true 1 2) yields 1, and (if) yields
Nil.

Conjunct 1 is the returned-as-is rule for an arbitrary first condition
(the chain loop returns the resolved condition the moment the boolean
capability is missing).  Conjunct 2 is the no-true-cond, no-else rule
for a chain of any length with literal Nil conditions.  Conjuncts 3 to 5
are the three concrete forms of the claim, and conjunct 6 exhibits the
as-is rule end to end: a quoted symbol as condition is returned
itself. -/
theorem c5_if_chain :
    (∀ (n : Nat) (st st1 : St) (c v : Value) (rest : List Value),
      run n st (.getT c) = some (v, st1) → canBool v = none →
      run (n + 1) st (.ifT (c :: rest)) = some (v, st1))
  ∧ (∀ (thens : List Value) (st : St), thens ≠ [] →
      run (thens.length + 2) st (.ifT (mkIfArgs thens)) = some (nilV, st))
  ∧ (∀ (n : Nat) (st : St),
      run (n + 6) st (.evalT (.listV [.sym "if", nilV, .intV 1, nilV, .intV 2, .intV 3]))
        = some (.intV 3, st))
  ∧ (∀ (n : Nat) (st : St),
      run (n + 6) st (.evalT (.listV [.sym "if", trueV, .intV 1, .intV 2]))
        = some (.intV 1, st))
  ∧ (∀ (n : Nat) (st : St),
      run (n + 2) st (.evalT (.listV [.sym "if"])) = some (nilV, st))
  ∧ (∀ (n : Nat) (st : St),
      run (n + 5) st (.evalT (.listV [.sym "if", .quoted (.sym "a"), .intV 7]))
        = some (.sym "a", st)) := by
  refine ⟨?_, ?_, ?_, ?_, ?_, ?_⟩
  · intro n st st1 c v rest h hb
    simp [run, h, hb]
  · intro thens
    induction thens with
    | nil => intro st h; exact absurd rfl h
    | cons t rest ih =>
      intro st _
      show run ((rest.length + 2) + 1) st (.ifT (mkIfArgs (t :: rest))) = _
      rw [show mkIfArgs (t :: rest) = nilV :: t :: mkIfArgs rest from rfl,
        run_ifT_cons, show (nilV : Value) = .boolean false from rfl,
        run_getT_boolean]
      cases rest with
      | nil => simp [mkIfArgs, canBool]
      | cons r1 rs =>
        have hrec := ih st (by simp)
        simp only [canBool]
        rw [show mkIfArgs (r1 :: rs) = nilV :: r1 :: mkIfArgs rs from rfl] at hrec ⊢
        simpa using hrec
  · intro n st
    simp [run, getname, isBuiltin, builtinNames, canBool, nilV, trueV]
  · intro n st
    simp [run, getname, isBuiltin, builtinNames, canBool, nilV, trueV]
  · intro n st
    simp [run, getname, isBuiltin, builtinNames]
  · intro n st
    simp [run, getname, isBuiltin, builtinNames, canBool]

/-- Witness for C5: a condition resolving to a Symbol (no boolean
capability) is returned as-is, and a two-pair all-nil chain without else
returns Nil. -/
theorem c5_if_chain_witness :
    run 4 st0 (.ifT [.quoted (.sym "q"), .intV 1]) = some (.sym "q", st0)
  ∧ run 4 st0 (.ifT (mkIfArgs [.intV 8, .intV 9])) = some (nilV, st0) := by
  constructor
  · exact c5_if_chain.1 3 st0 st0 (.quoted (.sym "q")) (.sym "q") [.intV 1]
      (by simp [run, getname]) rfl
  · simpa using c5_if_chain.2.1 [.intV 8, .intV 9] st0 (by simp)

/-! ## Claim C8: comparator dispatch -/

/-- The comparator fold on Integer literals realises the chained
comparison: True exactly when every adjacent pair is increasing, Nil
otherwise, with the caller state untouched. -/
theorem condFold_int_chain (ks : List Int) (k : Int) (st : St) :
    run (ks.length + 2) st (.condFoldT "<" (.intV k) (ks.map Value.intV)) =
      some (if List.Chain' (fun a b => a < b) (k :: ks) then trueV else nilV, st) := by
  induction ks generalizing k with
  | nil => simp [run]
  | cons x rest ih =>
    show run ((rest.length + 2) + 1) st _ = _
    rw [List.map_cons, run_condFoldT_cons, run_getT_intV]
    by_cases hkx : k < x
    · simp [applyCond, cmpLt, canInt, canCompare, hkx, ih x, List.chain'_cons]
    · simp [applyCond, cmpLt, canInt, hkx, List.chain'_cons]

/--
Claim C8.  Comparator dispatch implements chained semantics: with zero
operands it yields True; with a first operand that does not support
ordered comparison it yields True; otherwise each adjacent pair must
satisfy the comparator, so (< a b c) holds iff a<b and b<c, it stops and
returns Nil at the first violated pair, and if the running comparison
base becomes non-comparable mid-chain it stops returning True.

Conjunct 1: zero operands.  Conjunct 2: non-comparable first operand.
Conjunct 3: the chain on Integer operands of any length.  Conjunct 4:
the three-operand characterisation of the claim.  Conjunct 5: the first
violated pair stops the fold — the trailing setq form is never
evaluated, the state is untouched and zz stays unbound.  Conjunct 6: a
truthy pair whose right side (a List) lacks the comparison capability
stops the chain with True, again without evaluating the trailing
setq. -/
theorem c8_comparator_chain :
    (∀ (n : Nat) (st : St) (s : String),
      run (n + 1) st (.condT s []) = some (trueV, st))
  ∧ (∀ (n : Nat) (st st1 : St) (s : String) (a v : Value) (rest : List Value),
      run n st (.getT a) = some (v, st1) → canCompare v = false →
      run (n + 1) st (.condT s (a :: rest)) = some (trueV, st1))
  ∧ (∀ (ks : List Int) (k : Int) (st : St),
      run (ks.length + 2) st (.condFoldT "<" (.intV k) (ks.map Value.intV)) =
        some (if List.Chain' (fun a b => a < b) (k :: ks) then trueV else nilV, st))
  ∧ (∀ (a b c : Int) (st : St),
      run 5 st (.condT "<" [.intV a, .intV b, .intV c]) =
        some (if a < b ∧ b < c then trueV else nilV, st))
  ∧ run 20 st0 (.evalT (.listV [.condOp "<", .intV 2, .intV 1,
      .listV [.sym "setq", .sym "zz", .intV 5]])) = some (nilV, st0)
  ∧ run 20 st0 (.evalT (.listV [.condOp "<", nilV, .listV [.sym "list", .intV 1],
      .listV [.sym "setq", .sym "zz", .intV 5]])) = some (trueV, st0) := by
  refine ⟨?_, ?_, ?_, ?_, ?_, ?_⟩
  · intro n st s
    simp [run]
  · intro n st st1 s a v rest h hc
    simp [run, h, hc]
  · exact fun ks k st => condFold_int_chain ks k st
  · intro a b c st
    by_cases hab : a < b <;> by_cases hbc : b < c <;>
      simp [run, getname, canCompare, applyCond, cmpLt, canInt, hab, hbc]
  · rfl
  · rfl

/-- Witness for C8: a first operand resolving to a Symbol (no
comparison capability) yields True. -/
theorem c8_comparator_chain_witness :
    run 4 st0 (.condT "<" [.quoted (.sym "w"), .intV 1]) = some (trueV, st0) := by
  exact c8_comparator_chain.2.1 3 st0 st0 "<" (.quoted (.sym "w")) (.sym "w")
    [.intV 1] (by simp [run, getname]) rfl

/-! ## Claim C4: operator dispatch and fold -/

/-- The Integer accumulator loop of `callop` on Integer literal operands
is the monadic left fold of `intOp`, with the Go panic (division by
zero) as the bottom outcome. -/
theorem intFold_eq_foldlM (s : String) (xs : List Int) (acc : Int) (st : St) :
    run (xs.length + 2) st (.intFoldT s acc (xs.map Value.intV)) =
      match xs.foldlM (fun v i => intOp s v i) acc with
      | some v => some (.intV v, st)
      | none => none := by
  induction xs generalizing acc with
  | nil => simp [run]
  | cons x rest ih =>
    show run ((rest.length + 2) + 1) st _ = _
    rw [List.map_cons, run_intFoldT_cons, run_getT_intV]
    simp only [canInt]
    cases h : intOp s acc x with
    | none => simp [h, List.foldlM_cons]
    | some acc2 => simp [h, ih acc2, List.foldlM_cons]

/-- The Float accumulator loop on Float literal operands is the monadic
left fold of `floatOp`. -/
theorem floatFold_eq_foldlM (s : String) (xs : List Rat) (acc : Rat) (st : St) :
    run (xs.length + 2) st (.floatFoldT s acc (xs.map Value.floatV)) =
      match xs.foldlM (fun v i => floatOp s v i) acc with
      | some v => some (.floatV v, st)
      | none => none := by
  induction xs generalizing acc with
  | nil => simp [run]
  | cons x rest ih =>
    show run ((rest.length + 2) + 1) st _ = _
    rw [List.map_cons, run_floatFoldT_cons, run_getT_floatV]
    simp only [canFloat]
    cases h : floatOp s acc x with
    | none => simp [h, List.foldlM_cons]
    | some acc2 => simp [h, ih acc2, List.foldlM_cons]

/--
Claim C4.  In operator dispatch for the five arithmetic operators with
at least one operand, the numeric kind of the first evaluated operand
(Integer vs Float) determines the accumulator type; every successive
operand is evaluated and coerced to that type via the corresponding
capability, an operand lacking that capability yields an
invalid-parameter-type error terminating the fold, and application is a
left fold so that (- 10 1 2) = 7 and (/ 100 2 5) = 10.

Conjuncts 1 and 2: the two accumulator loops are monadic left folds of
the per-operator step on the coerced operands.  Conjunct 3: an operand
without the required capability (a String among Integers) produces the
invalid-parameter-type error and the fold stops — whatever operands
follow are never evaluated and the state is untouched.  Conjuncts 4 and
5: the first operand picks the accumulator type, so an Integer-first
form truncates a later Float through CanInt while a Float-first form
widens a later Integer through CanFloat.  Conjuncts 6 and 7: the two
left-fold examples of the claim. -/
theorem c4_operator_fold :
    (∀ (s : String) (xs : List Int) (acc : Int) (st : St),
      run (xs.length + 2) st (.intFoldT s acc (xs.map Value.intV)) =
        match xs.foldlM (fun v i => intOp s v i) acc with
        | some v => some (.intV v, st)
        | none => none)
  ∧ (∀ (s : String) (xs : List Rat) (acc : Rat) (st : St),
      run (xs.length + 2) st (.floatFoldT s acc (xs.map Value.floatV)) =
        match xs.foldlM (fun v i => floatOp s v i) acc with
        | some v => some (.floatV v, st)
        | none => none)
  ∧ (∀ (n : Nat) (st : St) (ys : List Value),
      run (n + 6) st (.evalT (.listV (.op "+" :: .intV 1 :: .strV "a" :: ys)))
        = some (.err "invalid-parameter-type", st))
  ∧ run 10 st0 (.evalT (.listV [.op "+", .intV 1, .floatV (5/2)])) = some (.intV 3, st0)
  ∧ run 10 st0 (.evalT (.listV [.op "+", .floatV 1, .intV 2])) = some (.floatV 3, st0)
  ∧ run 10 st0 (.evalT (.listV [.op "-", .intV 10, .intV 1, .intV 2])) = some (.intV 7, st0)
  ∧ run 10 st0 (.evalT (.listV [.op "/", .intV 100, .intV 2, .intV 5])) = some (.intV 10, st0) := by
  refine ⟨intFold_eq_foldlM, floatFold_eq_foldlM, ?_, ?_, ?_, ?_, ?_⟩
  · intro n st ys
    simp [run, getname, canInt]
  · with_unfolding_all rfl
  · with_unfolding_all rfl
  · with_unfolding_all rfl
  · with_unfolding_all rfl

/-! ## Claim C3: Integer and Float equality -/

/-- Counterexample to C3 as stated: under the source, (= 1 1.4) yields
True — the Integer receiver casts the Float argument through CanInt,
truncating 1.4 to 1 — although the widened comparison 1.0 = 1.4 is
false, so an Integer can be equal to a Float whose widened comparison
differs. -/
theorem c3_counterexample :
    run 10 st0 (.evalT (.listV [.condOp "=", .intV 1, .floatV (7/5)])) = some (trueV, st0)
  ∧ (1 : Rat) ≠ 7/5 := by
  constructor
  · with_unfolding_all rfl
  · norm_num

/--
Claim C3, amended.  Equality between an Integer and a Float is not
symmetric widening: with the Integer on the left the Float is truncated
toward zero through CanInt and compared as an integer, while with the
Float on the left the Integer is widened through CanFloat and compared
as a float; in particular (= 1 1.0) yields True in either reading, and
equality between a String and a number yields Nil.

Conjunct 1: the Integer-first form compares after truncation.  Conjunct
2: the Float-first form compares after widening.  Conjunct 3: the
concrete (= 1 1.0) of the claim.  Conjunct 4: the concrete
(= "a" 1) of the claim. -/
theorem c3_numeric_equality :
    (∀ (k : Int) (q : Rat) (n : Nat) (st : St),
      run (n + 5) st (.evalT (.listV [.condOp "=", .intV k, .floatV q])) =
        some (if k = ratTrunc q then trueV else nilV, st))
  ∧ (∀ (k : Int) (q : Rat) (n : Nat) (st : St),
      run (n + 5) st (.evalT (.listV [.condOp "=", .floatV q, .intV k])) =
        some (if q = (k : Rat) then trueV else nilV, st))
  ∧ run 10 st0 (.evalT (.listV [.condOp "=", .intV 1, .floatV 1])) = some (trueV, st0)
  ∧ run 10 st0 (.evalT (.listV [.condOp "=", .strV "a", .intV 1])) = some (nilV, st0) := by
  refine ⟨?_, ?_, ?_, ?_⟩
  · intro k q n st
    by_cases h : k = ratTrunc q <;>
      simp [run, getname, canCompare, applyCond, cmpEq, canInt, h]
  · intro k q n st
    by_cases h : q = (k : Rat) <;>
      simp [run, getname, canCompare, applyCond, cmpEq, canFloat, h]
  · with_unfolding_all rfl
  · with_unfolding_all rfl

/-! ## Claim C6: the while loop -/

/-- Counterexample to C6 as stated: (while nil (println 1)) does not
return the Boolean Nil.  The named result of the while built-in is never
assigned when the body never runs, so the Go value nil (a raw value
distinct from the Boolean Nil, which in particular lacks the boolean
capability that Nil has) is returned; the output trace stays empty. -/
theorem c6_counterexample :
    run 20 st0 (.evalT (.listV [.sym "while", nilV, .listV [.sym "println", .intV 1]]))
      = some (.goNil, st0)
  ∧ Value.goNil ≠ nilV := by
  refine ⟨rfl, ?_⟩
  simp [nilV]

/--
Claim C6, amended.  The while built-in re-evaluates its first operand
before each iteration, runs the body forms in order while the condition
is truthy, and returns the value of the last body form evaluated; if the
body never executed it returns the unassigned Go nil result — a raw
value distinct from the Boolean Nil — and in particular
(while nil (println 1)) returns that raw nil and produces no output
(the output trace is unchanged).

Conjunct 1: whenever the condition evaluates to a false or capability-
free value on first entry, the loop exits immediately with the raw Go
nil, the state being exactly the state after that single condition
evaluation (so no output happened).  Conjunct 2: with no operands at all
the built-in returns the Boolean Nil before entering the loop.
Conjunct 3: the end-to-end counter loop: (setq i 0) then
(while (< i 3) (setq i (+ i 1))) re-evaluates the condition each
iteration and returns 3, the value of the last body form evaluated.
Conjunct 4: the concrete example of the claim, with the unchanged
output trace visible in the unchanged state. -/
theorem c6_while_return :
    (∀ (n : Nat) (st st1 : St) (cond : Value) (body : List Value) (v : Value),
      run n st (.getT cond) = some (v, st1) →
      (canBool v = none ∨ canBool v = some false) →
      run (n + 1) st (.whileT cond body .goNil) = some (.goNil, st1))
  ∧ (∀ (n : Nat) (st : St), run (n + 1) st (.builtinT "while" []) = some (nilV, st))
  ∧ (runProgram 300 st0 [.listV [.sym "setq", .sym "i", .intV 0],
      .listV [.sym "while", .listV [.condOp "<", .sym "i", .intV 3],
        .listV [.sym "setq", .sym "i", .listV [.op "+", .sym "i", .intV 1]]]]).map Prod.fst
      = some (.intV 3)
  ∧ run 20 st0 (.evalT (.listV [.sym "while", nilV, .listV [.sym "println", .intV 1]]))
      = some (.goNil, st0) := by
  refine ⟨?_, ?_, ?_, ?_⟩
  · intro n st st1 cond body v h hb
    rcases hb with hb | hb <;> simp [run, h, hb]
  · intro n st
    simp [run]
  · rfl
  · rfl

/-- Witness for C6: the loop with the literal Nil condition and an empty
body exits at once with the raw Go nil. -/
theorem c6_while_return_witness :
    run 4 st0 (.whileT nilV [] .goNil) = some (.goNil, st0) := by
  exact c6_while_return.1 3 st0 st0 nilV [] nilV (by simp [run, getname, nilV])
    (Or.inr rfl)

/-! ## Claim C9: the find guard -/

/-- A found index of `idxAux` is an occurrence and is the first one. -/
theorem idxAux_some_first (nd : List Char) :
    ∀ (hay : List Char) (i : Nat), idxAux nd hay = some i →
      occursAtL nd hay i = true ∧ ∀ j, j < i → occursAtL nd hay j = false := by
  intro hay
  induction hay with
  | nil =>
    intro i h
    simp only [idxAux] at h
    by_cases hl : listLeads nd [] = true
    · simp [hl] at h
      subst h
      exact ⟨by simpa [occursAtL] using hl, fun j hj => absurd hj (by omega)⟩
    · simp [hl] at h
  | cons c t ih =>
    intro i h
    simp only [idxAux] at h
    by_cases hl : listLeads nd (c :: t) = true
    · simp [hl] at h
      subst h
      exact ⟨by simpa [occursAtL] using hl, fun j hj => absurd hj (by omega)⟩
    · simp only [hl, if_false, Bool.false_eq_true, if_neg] at h
      obtain ⟨i0, hi0, rfl⟩ := Option.map_eq_some'.mp h
      obtain ⟨h1, h2⟩ := ih i0 hi0
      refine ⟨by simpa [occursAtL] using h1, ?_⟩
      intro j hj
      cases j with
      | zero => simpa [occursAtL] using (by simpa using hl)
      | succ j0 =>
        have := h2 j0 (by omega)
        simpa [occursAtL] using this
  -- each occurrence test on c :: t at j+1 is the test on t at j

/-- When `idxAux` finds nothing, there is no occurrence anywhere. -/
theorem idxAux_none_absent (nd : List Char) :
    ∀ (hay : List Char), idxAux nd hay = none →
      ∀ j, occursAtL nd hay j = false := by
  intro hay
  induction hay with
  | nil =>
    intro h j
    simp only [idxAux] at h
    by_cases hl : listLeads nd [] = true
    · simp [hl] at h
    · simpa [occursAtL, List.drop_nil] using (by simpa using hl)
  | cons c t ih =>
    intro h j
    simp only [idxAux] at h
    by_cases hl : listLeads nd (c :: t) = true
    · simp [hl] at h
    · rw [if_neg (by simp [hl])] at h
      have ht : idxAux nd t = none := by
        cases hx : idxAux nd t with
        | none => rfl
        | some k => rw [hx] at h; simp at h
      cases j with
      | zero => simpa [occursAtL] using (by simpa using hl)
      | succ j0 => simpa [occursAtL] using ih ht j0

/-- A found index of `slicesIdxAux` is an equal element and is the first
equal element. -/
theorem slicesIdx_some_first (t : Value) :
    ∀ (items : List Value) (i : Nat), slicesIdxAux items t = some (some i) →
      (∃ x, items[i]? = some x ∧ goEq x t = some true) ∧
      (∀ j, j < i → ∃ x, items[j]? = some x ∧ goEq x t = some false) := by
  intro items
  induction items with
  | nil => intro i h; simp [slicesIdxAux] at h
  | cons x rest ih =>
    intro i h
    simp only [slicesIdxAux] at h
    cases he : goEq x t with
    | none => rw [he] at h; simp at h
    | some b =>
      rw [he] at h
      cases b with
      | true =>
        simp at h
        subst h
        exact ⟨⟨x, by simp, he⟩, fun j hj => absurd hj (by omega)⟩
      | false =>
        simp only at h
        obtain ⟨r, hr, hmap⟩ := Option.map_eq_some'.mp h
        obtain ⟨i0, hi0, rfl⟩ := Option.map_eq_some'.mp hmap
        subst hi0
        obtain ⟨h1, h2⟩ := ih i0 hr
        refine ⟨by simpa using h1, ?_⟩
        intro j hj
        cases j with
        | zero => exact ⟨x, by simp, he⟩
        | succ j0 =>
          have := h2 j0 (by omega)
          simpa using this

/-- When `slicesIdxAux` reports absence, no element equals the
needle. -/
theorem slicesIdx_none_absent (t : Value) :
    ∀ (items : List Value), slicesIdxAux items t = some none →
      ∀ (j : Nat) (x : Value), items[j]? = some x → goEq x t = some false := by
  intro items
  induction items with
  | nil => intro h j x hx; simp at hx
  | cons y rest ih =>
    intro h j x hx
    simp only [slicesIdxAux] at h
    cases he : goEq y t with
    | none => rw [he] at h; simp at h
    | some b =>
      rw [he] at h
      cases b with
      | true => simp at h
      | false =>
        simp only at h
        have hrest : slicesIdxAux rest t = some none := by
          cases hr : slicesIdxAux rest t with
          | none => rw [hr] at h; simp at h
          | some r =>
            rw [hr] at h
            cases r with
            | none => rfl
            | some k => simp at h
        cases j with
        | zero =>
          simp at hx
          subst hx
          exact he
        | succ j0 =>
          exact ih hrest j0 x (by simpa using hx)

/--
Claim C9.  For every needle and string-or-list haystack, find returns
the index of the first occurrence when that index is positive, and
returns Nil both when the needle is absent and when the first occurrence
is at position 0 — the guard admits only indices strictly greater than
zero.

Conjunct 1: on String operands the built-in returns the raw Go integer
p of the search when p is positive and Nil otherwise (including the
absent case).  Conjunct 2: on a needle and a (list ...) haystack the
built-in returns the raw Go integer of the slice search under the same
guard.  Conjuncts 3 and 4 characterise the string search as the first
occurrence: a found index is an occurrence, every smaller position is
not, and a none result means no occurrence at any position.  Conjuncts
5 and 6 characterise the slice search the same way.  Conjuncts 7 to 11
are concrete: needle at position 1 yields the index; needle at position
0 yields Nil; an absent needle yields Nil; same pair for a list
haystack. -/
theorem c9_find_positive_guard :
    (∀ (n : Nat) (st : St) (nd hay : String),
      run (n + 4) st (.builtinT "find" [.strV nd, .strV hay]) =
        some ((match strIdx hay nd with
               | some p => if 0 < p then Value.goInt p else nilV
               | none => nilV), st))
  ∧ (∀ (n : Nat) (st : St) (k : Int) (items : List Value),
      run (n + 5) st (.builtinT "find" [.intV k, .listV (.sym "list" :: items)]) =
        match slicesIdxAux items (.intV k) with
        | none => none
        | some r =>
          some ((match r with
                 | some p => if 0 < p then Value.goInt p else nilV
                 | none => nilV), st))
  ∧ (∀ (nd hay : List Char) (i : Nat), idxAux nd hay = some i →
      occursAtL nd hay i = true ∧ ∀ j, j < i → occursAtL nd hay j = false)
  ∧ (∀ (nd hay : List Char), idxAux nd hay = none →
      ∀ j, occursAtL nd hay j = false)
  ∧ (∀ (t : Value) (items : List Value) (i : Nat),
      slicesIdxAux items t = some (some i) →
      (∃ x, items[i]? = some x ∧ goEq x t = some true) ∧
      (∀ j, j < i → ∃ x, items[j]? = some x ∧ goEq x t = some false))
  ∧ (∀ (t : Value) (items : List Value), slicesIdxAux items t = some none →
      ∀ (j : Nat) (x : Value), items[j]? = some x → goEq x t = some false)
  ∧ run 9 st0 (.builtinT "find" [.strV "b", .strV "ab"]) = some (.goInt 1, st0)
  ∧ run 9 st0 (.builtinT "find" [.strV "a", .strV "ab"]) = some (nilV, st0)
  ∧ run 9 st0 (.builtinT "find" [.strV "z", .strV "ab"]) = some (nilV, st0)
  ∧ run 9 st0 (.builtinT "find" [.intV 20, .listV [.sym "list", .intV 10, .intV 20]])
      = some (.goInt 1, st0)
  ∧ run 9 st0 (.builtinT "find" [.intV 10, .listV [.sym "list", .intV 10, .intV 20]])
      = some (nilV, st0) := by
  refine ⟨?_, ?_, idxAux_some_first, idxAux_none_absent, slicesIdx_some_first,
    slicesIdx_none_absent, rfl, rfl, rfl, rfl, rfl⟩
  · intro n st nd hay
    cases h : strIdx hay nd <;>
      simp [run, getname, isBuiltin, builtinNames, h]
  · intro n st k items
    cases h : slicesIdxAux items (.intV k) <;>
      simp [run, getname, isBuiltin, builtinNames, h]

/-- Witness for C9: for needle b in haystack ab the search yields index
1, an occurrence with none earlier; and for the absent needle z no
position carries an occurrence. -/
theorem c9_find_positive_guard_witness :
    (occursAtL "b".data "ab".data 1 = true ∧ occursAtL "b".data "ab".data 0 = false)
  ∧ occursAtL "z".data "ab".data 1 = false := by
  constructor
  · have h := c9_find_positive_guard.2.2.1 "b".data "ab".data 1 rfl
    exact ⟨h.1, h.2 0 (by omega)⟩
  · exact c9_find_positive_guard.2.2.2.1 "z".data "ab".data rfl 1

/-! ## Claim C1: lambda invocation and capture -/

/-- Counterexample to C1 as stated: the program
(setq f (let (x) (setq x 10) (lambda () x))) followed by (f) returns
Nil, not 10.  A Lambda of this source stores parameters and body only —
no environment — so the frame of the call is chained to the caller, the
let frame holding x = 10 is gone, and the free x resolves to Nil. -/
theorem c1_counterexample :
    (runProgram 100 st0
      [.listV [.sym "setq", .sym "f",
        .listV [.sym "let", .listV [.sym "x"],
          .listV [.sym "setq", .sym "x", .intV 10],
          .listV [.sym "lambda", .listV [], .sym "x"]]],
       .listV [.sym "f"]]).map Prod.fst = some nilV
  ∧ nilV ≠ Value.intV 10 := by
  refine ⟨rfl, ?_⟩
  simp [nilV]

/--
Claim C1, amended.  When a Lambda is invoked, the evaluator creates a
new frame whose parent is the current environment of the caller — the Lambda
captures nothing, so free variables of the body are resolved against
the dynamic chain of the caller.  Consequently, for
(setq f (let (x) (setq x 10) (lambda () x))), calling (f) returns Nil
(the let frame is gone), and after a subsequent (setq x 99) at the
frame of the caller, (f) returns 99.

Conjunct 1: invoking a parameterless lambda whose body is a free
variable returns exactly what the chain of the caller currently binds for
that variable, with the state of the caller preserved.  Conjunct 2: the
program of the claim returns Nil.  Conjunct 3: the same program with
(setq x 99) inserted before the call returns 99. -/
theorem c1_lambda_caller_env :
    (∀ (n : Nat) (st : St) (y : String),
      run (n + 4) st (.bindT [] [] [] [.sym y]) = some (getFrames st.frames y, st))
  ∧ (runProgram 100 st0
      [.listV [.sym "setq", .sym "f",
        .listV [.sym "let", .listV [.sym "x"],
          .listV [.sym "setq", .sym "x", .intV 10],
          .listV [.sym "lambda", .listV [], .sym "x"]]],
       .listV [.sym "f"]]).map Prod.fst = some nilV
  ∧ (runProgram 100 st0
      [.listV [.sym "setq", .sym "f",
        .listV [.sym "let", .listV [.sym "x"],
          .listV [.sym "setq", .sym "x", .intV 10],
          .listV [.sym "lambda", .listV [], .sym "x"]]],
       .listV [.sym "setq", .sym "x", .intV 99],
       .listV [.sym "f"]]).map Prod.fst = some (.intV 99) := by
  refine ⟨?_, rfl, rfl⟩
  intro n st y
  obtain ⟨fs, outp⟩ := st
  cases fs with
  | nil => simp [run, getname, getFrames, frameGet?]
  | cons g r => simp [run, getname, getFrames, frameGet?]

/-! ## Claim C2: quoting -/

/-- The quote wrapper never outputs a bare Symbol or List. -/
theorem quoteFn_not_symOrList (v : Value) : isSymOrList (quoteFn v) = false := by
  cases v <;> simp [quoteFn, isSymOrList]

/-- On a Symbol or a List the quote wrapper wraps. -/
theorem quoteFn_of_symOrList (v : Value) (h : isSymOrList v = true) :
    quoteFn v = .quoted v := by
  cases v <;> simp [isSymOrList] at h <;> simp [quoteFn]

/-- Inverting `consRes` on a successful non-empty parse: the head is the
appended value and the tail comes from the continuation. -/
theorem consRes_ok (v0 : Value) (res : PRes) (w : Value) (l : List Value)
    (r : List Token) (h : consRes v0 res = .ok (w :: l) r) :
    w = v0 ∧ res = .ok l r := by
  cases res with
  | ok l2 r2 =>
    simp only [consRes] at h
    injection h with h1 h2
    injection h1 with hw hl
    subst hw hl h2
    exact ⟨rfl, rfl⟩
  | fail => simp [consRes] at h
  | errEof => simp [consRes] at h
  | errInvalid => simp [consRes] at h

/-- With the quoted flag set, the first form the parse loop appends is
never a bare Symbol or List: the flag wraps those two shapes and every
other appended form is of another variant. -/
theorem parseLoop_quoted_head (fuel : Nat) :
    ∀ (one neg : Bool) (ts : List Token) (v : Value) (l : List Value)
      (r : List Token),
      parseLoop fuel one neg true ts = .ok (v :: l) r → isSymOrList v = false := by
  induction fuel with
  | zero =>
    intro one neg ts v l r h
    simp [parseLoop] at h
  | succ n ih =>
    intro one neg ts v l r h
    cases ts with
    | nil => simp [parseLoop] at h
    | cons t ts =>
      cases t with
      | lparen =>
        simp only [parseLoop] at h
        cases hin : (match ts with
                     | [] => PRes.errEof
                     | _ => parseLoop n false false false ts) with
        | ok vv rest =>
          rw [hin] at h
          simp only at h
          obtain ⟨hw, -⟩ := consRes_ok _ _ _ _ _ h
          subst hw
          simpa [mq] using quoteFn_not_symOrList _
        | fail => rw [hin] at h; simp at h
        | errEof => rw [hin] at h; simp at h
        | errInvalid => rw [hin] at h; simp at h
      | rparen =>
        have h2 : PRes.ok [nilV] ts = PRes.ok (v :: l) r := by
          simpa [parseLoop] using h
        injection h2 with h1 _
        injection h1 with hw _
        subst hw
        rfl
      | sep =>
        simp only [parseLoop] at h
        by_cases ho : one
        · simp [ho] at h
        · rw [if_neg (by simpa using ho)] at h
          exact ih _ _ _ _ _ _ h
      | ident s =>
        simp only [parseLoop] at h
        obtain ⟨hw, -⟩ := consRes_ok _ _ _ _ _ h
        subst hw
        simpa [mq] using quoteFn_not_symOrList _
      | str s =>
        simp only [parseLoop] at h
        obtain ⟨hw, -⟩ := consRes_ok _ _ _ _ _ h
        subst hw
        simpa [mq] using quoteFn_not_symOrList _
      | int k =>
        simp only [parseLoop] at h
        obtain ⟨hw, -⟩ := consRes_ok _ _ _ _ _ h
        subst hw
        simpa [mq] using quoteFn_not_symOrList _
      | float q =>
        simp only [parseLoop] at h
        obtain ⟨hw, -⟩ := consRes_ok _ _ _ _ _ h
        subst hw
        simpa [mq] using quoteFn_not_symOrList _
      | quoteMark =>
        simp only [parseLoop] at h
        exact ih _ _ _ _ _ _ h
      | sign b =>
        simp only [parseLoop] at h
        exact ih _ _ _ _ _ _ h
      | op s =>
        simp only [parseLoop] at h
        obtain ⟨hw, -⟩ := consRes_ok _ _ _ _ _ h
        subst hw
        simpa [mq] using quoteFn_not_symOrList _
      | cmp s =>
        simp only [parseLoop] at h
        obtain ⟨hw, -⟩ := consRes_ok _ _ _ _ _ h
        subst hw
        simpa [mq] using quoteFn_not_symOrList _
      | unknown => simp [parseLoop] at h

/-- Raising the quoted flag wraps exactly the first appended form: if
the plain run of the loop parses a Symbol or List X first, the run with
the flag set parses the same stream to the same remainder with X
wrapped in one Quoted layer and everything after it unchanged. -/
theorem parseLoop_quote_shift (fuel : Nat) :
    ∀ (one neg : Bool) (ts : List Token) (X : Value) (l : List Value)
      (r : List Token),
      isSymOrList X = true →
      parseLoop fuel one neg false ts = .ok (X :: l) r →
      parseLoop fuel one neg true ts = .ok (.quoted X :: l) r := by
  induction fuel with
  | zero =>
    intro one neg ts X l r hX h
    simp [parseLoop] at h
  | succ n ih =>
    intro one neg ts X l r hX h
    cases ts with
    | nil => simp [parseLoop] at h
    | cons t ts =>
      cases t with
      | lparen =>
        simp only [parseLoop] at h ⊢
        cases hin : (match ts with
                     | [] => PRes.errEof
                     | _ => parseLoop n false false false ts) with
        | ok vv rest =>
          rw [hin] at h
          simp only at h
          obtain ⟨hw, hcont⟩ := consRes_ok _ _ _ _ _ h
          subst hw
          show consRes (mq true (Value.listV vv)) (parseLoop n one neg false rest) = _
          rw [hcont]
          simp [mq, consRes, quoteFn]
        | fail => rw [hin] at h; simp at h
        | errEof => rw [hin] at h; simp at h
        | errInvalid => rw [hin] at h; simp at h
      | rparen =>
        simp only [parseLoop] at h
        simp at h
      | sep =>
        simp only [parseLoop] at h ⊢
        by_cases ho : one
        · simp [ho] at h
        · rw [if_neg (by simpa using ho)] at h ⊢
          exact ih _ _ _ _ _ _ hX h
      | ident s =>
        simp only [parseLoop] at h ⊢
        obtain ⟨hw, hcont⟩ := consRes_ok _ _ _ _ _ h
        subst hw
        have hX2 : isSymOrList (identV s) = true := by simpa [mq] using hX
        rw [hcont]
        simp [mq, consRes, quoteFn_of_symOrList _ hX2]
      | str s =>
        simp only [parseLoop] at h
        obtain ⟨hw, -⟩ := consRes_ok _ _ _ _ _ h
        subst hw
        simp [mq, isSymOrList] at hX
      | int k =>
        simp only [parseLoop] at h
        obtain ⟨hw, -⟩ := consRes_ok _ _ _ _ _ h
        subst hw
        simp [mq, isSymOrList] at hX
      | float q =>
        simp only [parseLoop] at h
        obtain ⟨hw, -⟩ := consRes_ok _ _ _ _ _ h
        subst hw
        simp [mq, isSymOrList] at hX
      | quoteMark =>
        simp only [parseLoop] at h ⊢
        have := parseLoop_quoted_head n one neg ts X l r h
        rw [this] at hX
        exact absurd hX (by simp)
      | sign b =>
        simp only [parseLoop] at h ⊢
        exact ih _ _ _ _ _ _ hX h
      | op s =>
        simp only [parseLoop] at h
        obtain ⟨hw, -⟩ := consRes_ok _ _ _ _ _ h
        subst hw
        simp [mq, isSymOrList] at hX
      | cmp s =>
        simp only [parseLoop] at h
        obtain ⟨hw, -⟩ := consRes_ok _ _ _ _ _ h
        subst hw
        simp [mq, isSymOrList] at hX
      | unknown => simp [parseLoop] at h

/-- Counterexample to the double-quote half of C2: the stream of
tokens of (quote-mark quote-mark a) parses to a single Quoted around the
symbol a — the one-shot quoted flag of the parse loop is simply set
twice — so evaluating the parse of double-quoted a returns the bare
symbol a, not Quoted a. -/
theorem c2_counterexample :
    parseGo 10 false [.quoteMark, .quoteMark, .ident "a"]
      = .ok [.quoted (.sym "a")] []
  ∧ run 5 st0 (.evalT (.quoted (.sym "a"))) = some (.sym "a", st0)
  ∧ Value.sym "a" ≠ .quoted (.sym "a") := by
  refine ⟨rfl, rfl, ?_⟩
  simp

/--
Claim C2, amended.  For every Symbol or List X, evaluating the parse of
quote-mark X returns X unchanged (exactly one layer of quotation is
stripped by the evaluator after exactly one layer is added by the
parser), but a second quote mark adds nothing: the parse of a stream
prefixed by two quote marks is the parse of the stream prefixed by one,
so double-quoted X also evaluates to X rather than to Quoted X.

Conjunct 1: whenever the plain loop parses a Symbol or List X first,
prefixing one quote-mark token parses to Quoted X with the rest
unchanged.  Conjunct 2: the evaluator strips exactly the one layer.
Conjunct 3: a second quote-mark prefix parses identically to a single
one. -/
theorem c2_quote_strips_one :
    (∀ (fuel : Nat) (one neg : Bool) (ts : List Token) (X : Value)
      (l : List Value) (r : List Token),
      isSymOrList X = true →
      parseLoop fuel one neg false ts = .ok (X :: l) r →
      parseLoop (fuel + 1) one neg false (.quoteMark :: ts) = .ok (.quoted X :: l) r)
  ∧ (∀ (X : Value) (n : Nat) (st : St),
      run (n + 1) st (.evalT (.quoted X)) = some (X, st))
  ∧ (∀ (fuel : Nat) (one neg : Bool) (ts : List Token),
      parseLoop (fuel + 2) one neg false (.quoteMark :: .quoteMark :: ts) =
        parseLoop (fuel + 1) one neg false (.quoteMark :: ts)) := by
  refine ⟨?_, ?_, ?_⟩
  · intro fuel one neg ts X l r hX h
    show parseLoop fuel one neg true ts = _
    exact parseLoop_quote_shift fuel one neg ts X l r hX h
  · intro X n st
    simp [run]
  · intro fuel one neg ts
    rfl

/-- Witness for C2: prefixing a quote mark to the token of the symbol
abc parses to the quoted symbol. -/
theorem c2_quote_strips_one_witness :
    parseLoop 3 false false false [.quoteMark, .ident "abc"]
      = .ok [.quoted (.sym "abc")] [] := by
  have := c2_quote_strips_one.1 2 false false [.ident "abc"] (.sym "abc") [] []
    rfl (by rfl)
  simpa using this

end Gisp
